import Mathlib

/-
Verification of the synx-frp push-based FRP core against its specification.

The embedding is a shallow trace semantics of the TypeScript source:

* `ReactiveState` embeds the mutable state of `ReactiveImpl`
  (src/reactive.ts): the current value plus the ordered subscriber list.
  Handlers are identified by `HandlerId`; their runtime behaviour (whether a
  given invocation throws) is passed explicitly as `beh : HandlerId → A →
  Except String Unit`, reflecting that JavaScript handlers are opaque
  closures that may throw.
* Occurrence-stream combinators built on the push `Future` of future.ts
  (whose computation wraps the parent handler) are embedded by their
  delivery traces: given the list of values the upstream delivers to a
  handler, the definition computes the list the derived stream delivers.
  A user-supplied function that may throw is embedded as `A → Option B`
  (`none` = the call threw).
-/

namespace SynxFRP

/-- Identifier standing for a JavaScript handler closure; two registrations
of the same closure carry the same id (reference identity). -/
abbrev HandlerId := Nat

/-- State of `ReactiveImpl` (reactive.ts): `currentValue` and the ordered
`subscribers` array.  Subscribers appear in registration order because
`subscribeInternal` pushes at the end. -/
structure ReactiveState (A : Type) where
  currentValue : A
  subscribers : List HandlerId
deriving Repr, DecidableEq

/-- Embeds `ReactiveImpl.subscribeInternal` (reactive.ts): `this.subscribers.push(handler)`.
The `notifyWithCurrent` immediate delivery is not part of the stored state
and is treated at use sites. -/
def ReactiveState.subscribeInternal {A : Type} (s : ReactiveState A) (h : HandlerId) :
    ReactiveState A :=
  { s with subscribers := s.subscribers ++ [h] }

/-- Embeds the unsubscribe closure returned by `subscribeInternal`:
`this.subscribers = this.subscribers.filter((sub) => sub !== handler)`.
Removal is by handler (reference) identity and removes every occurrence. -/
def ReactiveState.unsubscribe {A : Type} (s : ReactiveState A) (h : HandlerId) :
    ReactiveState A :=
  { s with subscribers := s.subscribers.filter (fun sub => sub ≠ h) }

/-- Embeds the notification loop of `ReactiveImpl.updateValueInternal`:
`this.subscribers.forEach((sub) => { try { sub(newValue) } catch { log } })`.
Each subscriber is invoked in order; the `try/catch` sits inside the loop
body, so a throwing subscriber (`beh h v = .error e`) is recorded with
outcome `false` and the loop continues with the next subscriber. -/
def notifyAll {A : Type} (beh : HandlerId → A → Except String Unit) (v : A) :
    List HandlerId → List (HandlerId × Bool)
  | [] => []
  | h :: rest =>
    match beh h v with
    | Except.ok _ => (h, true) :: notifyAll beh v rest
    | Except.error _ => (h, false) :: notifyAll beh v rest

/-- Embeds `ReactiveImpl.updateValueInternal` (reactive.ts): sets
`currentValue` to the new value, then notifies every subscriber in order.
Returns the new state together with the invocation log (one entry per
subscriber invocation, `true` when the handler returned normally). -/
def ReactiveState.updateValueInternal {A : Type} (beh : HandlerId → A → Except String Unit)
    (s : ReactiveState A) (v : A) : ReactiveState A × List (HandlerId × Bool) :=
  ({ s with currentValue := v }, notifyAll beh v s.subscribers)

/-- Benign subscriber behaviour (no handler throws); used where only the
state component of an update matters, which is independent of `beh`. -/
def okBeh {A : Type} : HandlerId → A → Except String Unit := fun _ _ => Except.ok ()

/-- Folds a list of occurrences into a reactive via repeated
`updateValueInternal`, as the stepper wiring does: the `ReactiveImpl`
constructor subscribes `(newValue) => this.updateValueInternal(newValue)`
to its driving event, so each delivered occurrence becomes one update. -/
def ReactiveState.applyOccurrences {A : Type} (s : ReactiveState A) (xs : List A) :
    ReactiveState A :=
  xs.foldl (fun st v => (st.updateValueInternal okBeh v).1) s

/-- Trace semantics of `Future.map` (future.ts): the derived computation
wraps the parent handler in `try { handler(f(a)) } catch { log }`; an
occurrence on which `f` throws (`f a = none`) is dropped, all others are
forwarded transformed, and the subscription stays live. -/
def mapTrace {A B : Type} (f : A → Option B) : List A → List B
  | [] => []
  | a :: rest =>
    match f a with
    | some b => b :: mapTrace f rest
    | none => mapTrace f rest

/-- Trace semantics of `EventImpl.filter` (event.ts): the derived future's
handler runs `try { if (predicate(a)) handler(a) } catch { log }`.  The
predicate result is `some true` (kept), `some false` (dropped) or `none`
(predicate threw: caught, logged, occurrence dropped). -/
def filterTrace {A : Type} (p : A → Option Bool) : List A → List A
  | [] => []
  | a :: rest =>
    match p a with
    | some true => a :: filterTrace p rest
    | some false => filterTrace p rest
    | none => filterTrace p rest

/-- Sequence of values passed to `result.updateValueInternal` by the
subscription installed in `EventImpl.fold` (event.ts): on each occurrence
`a` it runs `try { acc = f(acc, a); result.updateValueInternal(acc) } catch
{ log }`, so a throwing fold function (`f acc a = none`) leaves the
accumulator unchanged and produces no update for that occurrence. -/
def foldUpdates {A B : Type} (f : B → A → Option B) (acc : B) : List A → List B
  | [] => []
  | a :: rest =>
    match f acc a with
    | some acc2 => acc2 :: foldUpdates f acc2 rest
    | none => foldUpdates f acc rest

/-- Accumulator value held by the fold closure after processing the given
occurrences (same recursion as `foldUpdates`, returning the final `acc`). -/
def foldAcc {A B : Type} (f : B → A → Option B) (acc : B) : List A → B
  | [] => acc
  | a :: rest =>
    match f acc a with
    | some acc2 => foldAcc f acc2 rest
    | none => foldAcc f acc rest

/-- State held by the closure of `EventImpl.zip` (event.ts): the latest
value and has-value flag per side.  Since `latestA` is assigned exactly
when `hasA` is set (and values are non-null), both are one `Option`. -/
structure ZipState (A B : Type) where
  latestA : Option A
  latestB : Option B
deriving Repr, DecidableEq

/-- One delivery step of `EventImpl.zip`: an occurrence on the left side
stores it as `latestA` and emits a pair exactly when the right side already
has a value (`hasB && latestB !== null`), pairing the new value with the
other side's last-known value; symmetrically for the right side. -/
def zipStep {A B : Type} (s : ZipState A B) : A ⊕ B → ZipState A B × List (A × B)
  | Sum.inl a =>
    ({ s with latestA := some a },
     match s.latestB with
     | some b => [(a, b)]
     | none => [])
  | Sum.inr b =>
    ({ s with latestB := some b },
     match s.latestA with
     | some a => [(a, b)]
     | none => [])

/-- Trace of pairs `EventImpl.zip` delivers from a given start state when
the two upstream subscriptions deliver the tagged occurrences in order. -/
def zipTraceFrom {A B : Type} (s : ZipState A B) : List (A ⊕ B) → List (A × B)
  | [] => []
  | o :: rest =>
    (zipStep s o).2 ++ zipTraceFrom (zipStep s o).1 rest

/-- Zip state after processing the tagged occurrences from a start state. -/
def zipFinal {A B : Type} (s : ZipState A B) : List (A ⊕ B) → ZipState A B
  | [] => s
  | o :: rest => zipFinal (zipStep s o).1 rest

/-- Pair trace of a fresh `zip` (both closure variables start `null`). -/
def zipTrace {A B : Type} (xs : List (A ⊕ B)) : List (A × B) :=
  zipTraceFrom ⟨none, none⟩ xs

/-- Stepper cache fields of `EventImpl` (event.ts): `stepperReactive`
(identified here by an instance id) and `stepperInitialValue`. -/
structure StepperCache (A : Type) where
  stepperReactive : Option Nat
  stepperInitialValue : Option A
deriving Repr, DecidableEq

/-- Embeds `EventImpl.stepper` (event.ts): if a stepper reactive is cached
and its seed strictly equals the requested one, return the cached instance;
otherwise construct a new reactive (`fresh` is its instance id) and cache
it together with the seed.  Returns the instance id and the new cache. -/
def StepperCache.stepper {A : Type} [DecidableEq A] (c : StepperCache A) (v : A)
    (fresh : Nat) : Nat × StepperCache A :=
  match c.stepperReactive with
  | some rid =>
    if c.stepperInitialValue = some v then (rid, c)
    else (fresh, ⟨some fresh, some v⟩)
  | none => (fresh, ⟨some fresh, some v⟩)

/-- Embeds `EventImpl.emit` (the source/derived variant of event.ts whose
`EventImpl` stores an optional `sourceReactive`): emitting on a derived
event (`sourceReactive` absent) throws `"Cannot emit on derived events"`;
on a source event it forwards the value through
`sourceReactive.updateValueInternal`. -/
def emitOp {A : Type} (beh : HandlerId → A → Except String Unit)
    (sourceReactive : Option (ReactiveState A)) (v : A) :
    Except String (ReactiveState A × List (HandlerId × Bool)) :=
  match sourceReactive with
  | none => Except.error "Cannot emit on derived events"
  | some r => Except.ok (r.updateValueInternal beh v)

/-- View of `ReactiveImpl` for its `map` method: the current value plus the
optional change event, the latter embedded by the occurrence trace it
delivers (`none` when `this.changeEvent` is `undefined`). -/
structure ReactiveWithChanges (A : Type) where
  currentValue : A
  changeEvent : Option (List A)

/-- Embeds `ReactiveImpl.map` (reactive.ts): computes
`initialValue = f(this.currentValue)` synchronously and outside any
`try/catch` — so a throwing `f` (`f currentValue = none`) makes the whole
call throw and no result is produced — then maps the change event with `f`
when one exists (`this.changeEvent ? this.changeEvent.map(f) : undefined`),
creating none when the parent has none. -/
def ReactiveWithChanges.map {A B : Type} (f : A → Option B) (r : ReactiveWithChanges A) :
    Option (ReactiveWithChanges B) :=
  match f r.currentValue with
  | none => none
  | some b => some ⟨b, r.changeEvent.map (mapTrace f)⟩

/-- State captured by the closures of `Event.create` (event.ts, source
creation): the promoted backing reactive (`reactive`, initially `null`),
the buffered first value (`initialValue`, initially `null`) and the queue
of first-emit handlers (`onFirstEmit`). -/
structure CreateState (A : Type) where
  reactive : Option (ReactiveState A)
  initialValue : Option A
  onFirstEmit : List HandlerId
deriving Repr, DecidableEq

/-- Fresh state of `Event.create`: no reactive, no value, empty queue. -/
def CreateState.init {A : Type} : CreateState A := ⟨none, none, []⟩

/-- Observable effects of one `Event.create` operation. -/
inductive CreateObs (A : Type) where
  /-- The backing future delivered the already-known initial value to the
  newly registered handler on its first run. -/
  | delivered (h : HandlerId) (v : A)
  /-- The handler was registered into the first-emit queue and waits. -/
  | queuedObs (h : HandlerId)
  /-- Promotion: the stream became backed by a concrete reactive
  (the chain callback bound `reactive` and created `innerFuture`). -/
  | promoted
  /-- An emission was forwarded through `reactive.updateValueInternal`,
  the privileged update path. -/
  | privilegedUpdate (v : A)
deriving Repr, DecidableEq

/-- Embeds running the stream's backing future for a new handler, i.e.
`event.subscribe(h)` on a stream from `Event.create`.

Modelled from the spec: `Future.reactive` and `Future.chain`, which
`Event.create` composes, are not present in the sources (only their call
site is); per §4 "Source creation" the backing future, when first run,
"either (a) delivers the already-known initial value if one was emitted
before any subscription existed, or (b) registers into the queue and
waits", and per §4.1 `chain` subscribes the handler to the inner future on
each parent delivery.  The parts visible in `Event.create` itself are kept
exactly: the queue push into `onFirstEmit`, and the chain callback's
`innerFuture === null` guard making promotion happen only on the first
delivered reactive (afterwards the existing inner future is reused, which
here subscribes the handler to the backing reactive via
`Future.fromReactive`, i.e. `subscribeInternal(handler, false)`). -/
def CreateState.runSubscribe {A : Type} (s : CreateState A) (h : HandlerId) :
    CreateState A × List (CreateObs A) :=
  match s.reactive with
  | some r => ({ s with reactive := some (r.subscribeInternal h) }, [])
  | none =>
    match s.initialValue with
    | some v =>
      ({ s with reactive := some ⟨v, [h]⟩ },
       [CreateObs.delivered h v, CreateObs.promoted])
    | none =>
      ({ s with onFirstEmit := s.onFirstEmit ++ [h] }, [CreateObs.queuedObs h])

/-- Embeds the `emit` closure of `Event.create` (event.ts): when no
reactive is bound yet it records `initialValue = value` and invokes every
queued first-emit handler — the first such invocation reaches the chain
callback, which binds the reactive (promotion) and routes the queued
handlers onto it via `Future.fromReactive` — and when a reactive is bound
it calls `reactive.updateValueInternal(value)`. -/
def CreateState.emit {A : Type} (s : CreateState A) (v : A) :
    CreateState A × List (CreateObs A) :=
  match s.reactive with
  | some r =>
    ({ s with reactive := some (r.updateValueInternal okBeh v).1 },
     [CreateObs.privilegedUpdate v])
  | none =>
    match s.onFirstEmit with
    | [] => ({ s with initialValue := some v }, [])
    | hs =>
      ({ s with reactive := some ⟨v, hs⟩, initialValue := some v },
       [CreateObs.promoted])

/-- One external operation on a stream from `Event.create`. -/
inductive CreateOp (A : Type) where
  | sub (h : HandlerId)
  | emitVal (v : A)
deriving Repr, DecidableEq

/-- Step of the `Event.create` state machine. -/
def CreateState.step {A : Type} (s : CreateState A) :
    CreateOp A → CreateState A × List (CreateObs A)
  | CreateOp.sub h => s.runSubscribe h
  | CreateOp.emitVal v => s.emit v

/-- Runs a sequence of operations on an `Event.create` stream, collecting
the observation trace. -/
def runCreate {A : Type} (s : CreateState A) : List (CreateOp A) → CreateState A × List (CreateObs A)
  | [] => (s, [])
  | op :: rest =>
    ((runCreate (s.step op).1 rest).1, (s.step op).2 ++ (runCreate (s.step op).1 rest).2)

/-- Recognizes the promotion observation. -/
def isPromotedObs {A : Type} : CreateObs A → Bool
  | CreateObs.promoted => true
  | _ => false

/-! Helper lemmas -/

/-- Every handler in the list is invoked, in order, whatever each
invocation's outcome. -/
theorem notifyAll_map_fst {A : Type} (beh : HandlerId → A → Except String Unit) (v : A) :
    ∀ hs : List HandlerId, (notifyAll beh v hs).map Prod.fst = hs := by
  intro hs
  induction hs with
  | nil => rfl
  | cons h rest ih =>
    cases hbeh : beh h v with
    | ok u => simp [notifyAll, hbeh, ih]
    | error e => simp [notifyAll, hbeh, ih]

theorem applyOccurrences_currentValue {A : Type} :
    ∀ (xs : List A) (s : ReactiveState A),
      (s.applyOccurrences xs).currentValue = xs.foldl (fun _ v => v) s.currentValue := by
  intro xs
  induction xs with
  | nil => intro s; rfl
  | cons a rest ih =>
    intro s
    simpa [ReactiveState.applyOccurrences, List.foldl_cons, ReactiveState.updateValueInternal]
      using ih ((s.updateValueInternal okBeh a).1)

theorem foldl_select_last {A : Type} :
    ∀ (xs : List A) (d : A), xs.foldl (fun _ v => v) d = (xs.getLast?).getD d := by
  intro xs
  induction xs using List.reverseRecOn with
  | nil => intro d; rfl
  | append_singleton ys y ih =>
    intro d
    simp [List.foldl_append, List.getLast?_concat]

theorem mapTrace_append {A B : Type} (f : A → Option B) :
    ∀ xs ys : List A, mapTrace f (xs ++ ys) = mapTrace f xs ++ mapTrace f ys := by
  intro xs ys
  induction xs with
  | nil => rfl
  | cons a rest ih =>
    cases hfa : f a with
    | some b => simp [mapTrace, hfa, ih]
    | none => simp [mapTrace, hfa, ih]

theorem filterTrace_append {A : Type} (p : A → Option Bool) :
    ∀ xs ys : List A, filterTrace p (xs ++ ys) = filterTrace p xs ++ filterTrace p ys := by
  intro xs ys
  induction xs with
  | nil => rfl
  | cons a rest ih =>
    cases hpa : p a with
    | some b => cases b <;> simp [filterTrace, hpa, ih]
    | none => simp [filterTrace, hpa, ih]

theorem foldUpdates_append {A B : Type} (f : B → A → Option B) :
    ∀ (xs ys : List A) (acc : B),
      foldUpdates f acc (xs ++ ys) = foldUpdates f acc xs ++ foldUpdates f (foldAcc f acc xs) ys := by
  intro xs
  induction xs with
  | nil => intro ys acc; rfl
  | cons a rest ih =>
    intro ys acc
    cases hfa : f acc a with
    | some acc2 => simp [foldUpdates, foldAcc, hfa, ih]
    | none => simp [foldUpdates, foldAcc, hfa, ih]

theorem foldAcc_append {A B : Type} (f : B → A → Option B) :
    ∀ (xs ys : List A) (acc : B),
      foldAcc f acc (xs ++ ys) = foldAcc f (foldAcc f acc xs) ys := by
  intro xs
  induction xs with
  | nil => intro ys acc; rfl
  | cons a rest ih =>
    intro ys acc
    cases hfa : f acc a with
    | some acc2 => simp [foldAcc, hfa, ih]
    | none => simp [foldAcc, hfa, ih]

theorem foldUpdates_pure_scanl {A B : Type} (f : B → A → B) :
    ∀ (xs : List A) (acc : B),
      foldUpdates (fun b a => some (f b a)) acc xs = (List.scanl f acc xs).tail := by
  intro xs
  induction xs with
  | nil => intro acc; rfl
  | cons a rest ih =>
    intro acc
    simp only [foldUpdates, List.scanl_cons, List.tail_cons, ih]
    cases rest <;> simp [List.scanl]

theorem foldUpdates_pure_last {A B : Type} (f : B → A → B) :
    ∀ (xs : List A) (acc : B),
      (foldUpdates (fun b a => some (f b a)) acc xs).foldl (fun _ v => v) acc =
        xs.foldl f acc := by
  intro xs
  induction xs with
  | nil => intro acc; rfl
  | cons a rest ih => intro acc; simp [foldUpdates, List.foldl_cons, ih]

/-! Claim theorems -/

/-- C4: `updateValueInternal(v)` sets the current value to `v`, preserves
the subscriber registry, and synchronously invokes every registered
subscriber with `v` in registration order; since this holds for every
behaviour `beh` — including ones where some subscribers throw — an
exception in one subscriber does not prevent the remaining subscribers
from being notified. -/
theorem updateValueInternal_sets_and_notifies_all :
    ∀ (A : Type) (beh : HandlerId → A → Except String Unit) (s : ReactiveState A) (v : A),
      (s.updateValueInternal beh v).1.currentValue = v ∧
      (s.updateValueInternal beh v).1.subscribers = s.subscribers ∧
      ((s.updateValueInternal beh v).2.map Prod.fst = s.subscribers) := by
  intro A beh s v
  refine ⟨rfl, rfl, ?_⟩
  exact notifyAll_map_fst beh v s.subscribers

/-- C10: the unsubscribe closure returned by `subscribeInternal` removes
subscriptions by handler identity — after registering the same handler
twice, one unsubscribe call removes every registration of that handler
(and in general leaves no registration of it behind), and calling it a
second time changes nothing. -/
theorem unsubscribe_removes_by_identity :
    ∀ (A : Type) (s : ReactiveState A) (h : HandlerId),
      (((s.subscribeInternal h).subscribeInternal h).unsubscribe h).subscribers.count h = 0 ∧
      (s.unsubscribe h).subscribers.count h = 0 ∧
      (s.unsubscribe h).unsubscribe h = s.unsubscribe h := by
  intro A s h
  have hcount : ∀ l : List HandlerId, (l.filter (fun sub => sub ≠ h)).count h = 0 := by
    intro l
    refine List.count_eq_zero.mpr ?_
    intro hmem
    rcases List.mem_filter.mp hmem with ⟨_, hne⟩
    simp at hne
  refine ⟨hcount _, hcount _, ?_⟩
  simp only [ReactiveState.unsubscribe, List.filter_filter]
  congr 1
  apply List.filter_congr
  intro x hx
  cases hd : (decide (x ≠ h)) <;> simp [hd]

/-- C6: mapping a stream with `f` and then `g` delivers the same occurrence
sequence as mapping once with the composition, for pure `f` and `g`
(functor composition of `EventImpl.map` / `Future.map`). -/
theorem map_functor_compose :
    ∀ (A B C : Type) (f : A → B) (g : B → C) (xs : List A),
      mapTrace (fun b => some (g b)) (mapTrace (fun a => some (f a)) xs) =
        mapTrace (fun a => some (g (f a))) xs := by
  intro A B C f g xs
  induction xs with
  | nil => rfl
  | cons a rest ih => simp [mapTrace, ih]

/-- C2: `fold(initial, f)` yields a reactive seeded with `initial`; on each
occurrence it computes `acc = f(acc, v)` and calls
`updateValueInternal(acc)`, so the observed update sequence is the left
scan of `f` over the occurrences (and the reactive's final value is the
left fold); for seed `0` and addition, emitting `[1, 2, 3]` yields the
observed accumulator sequence `[1, 3, 6]`. -/
theorem fold_updates_are_scanl :
    ∀ (A B : Type) (f : B → A → B) (initial : B) (xs : List A) (subs : List HandlerId),
      foldUpdates (fun b a => some (f b a)) initial xs = (List.scanl f initial xs).tail ∧
      (ReactiveState.applyOccurrences ⟨initial, subs⟩
          (foldUpdates (fun b a => some (f b a)) initial xs)).currentValue =
        xs.foldl f initial ∧
      foldUpdates (fun b a => some (b + a)) (0 : Nat) [1, 2, 3] = [1, 3, 6] := by
  intro A B f initial xs subs
  refine ⟨foldUpdates_pure_scanl f xs initial, ?_, by decide⟩
  rw [applyOccurrences_currentValue]
  exact foldUpdates_pure_last f xs initial

/-- C5: for a derived stream built with `map`, `filter` or `fold`, an
occurrence on which the user-supplied function throws is dropped for that
downstream path (for `fold` the accumulator stays unchanged), while the
subscription stays alive and every other occurrence — before or after the
throwing one — is processed exactly as if the faulty occurrence had not
happened. -/
theorem transform_fault_isolated :
    ∀ (A B : Type) (f : A → Option B) (p : A → Option Bool) (g : B → A → Option B)
      (initial : B) (xs ys : List A) (a : A),
      (f a = none → mapTrace f (xs ++ a :: ys) = mapTrace f (xs ++ ys)) ∧
      (p a = none → filterTrace p (xs ++ a :: ys) = filterTrace p (xs ++ ys)) ∧
      (g (foldAcc g initial xs) a = none →
        foldUpdates g initial (xs ++ a :: ys) = foldUpdates g initial (xs ++ ys) ∧
        foldAcc g initial (xs ++ a :: ys) = foldAcc g initial (xs ++ ys)) := by
  intro A B f p g initial xs ys a
  refine ⟨?_, ?_, ?_⟩
  · intro hfa
    rw [mapTrace_append, mapTrace_append]
    simp [mapTrace, hfa]
  · intro hpa
    rw [filterTrace_append, filterTrace_append]
    simp [filterTrace, hpa]
  · intro hga
    have h1 : foldUpdates g (foldAcc g initial xs) (a :: ys) =
        foldUpdates g (foldAcc g initial xs) ys := by
      simp [foldUpdates, hga]
    have h2 : foldAcc g (foldAcc g initial xs) (a :: ys) =
        foldAcc g (foldAcc g initial xs) ys := by
      simp [foldAcc, hga]
    constructor
    · rw [foldUpdates_append, foldUpdates_append, h1]
    · rw [foldAcc_append, foldAcc_append, h2]

theorem zipTraceFrom_append {A B : Type} :
    ∀ (xs ys : List (A ⊕ B)) (s : ZipState A B),
      zipTraceFrom s (xs ++ ys) = zipTraceFrom s xs ++ zipTraceFrom (zipFinal s xs) ys := by
  intro xs
  induction xs with
  | nil => intro ys s; rfl
  | cons o rest ih =>
    intro ys s
    simp [zipTraceFrom, zipFinal, ih]

theorem zipFinal_append {A B : Type} :
    ∀ (xs ys : List (A ⊕ B)) (s : ZipState A B),
      zipFinal s (xs ++ ys) = zipFinal (zipFinal s xs) ys := by
  intro xs
  induction xs with
  | nil => intro ys s; rfl
  | cons o rest ih =>
    intro ys s
    simp [zipFinal, ih]

theorem zip_left_only {A B : Type} :
    ∀ (xs : List (A ⊕ B)) (la : Option A),
      (∀ x ∈ xs, x.isLeft = true) →
      zipTraceFrom ⟨la, none⟩ xs = [] ∧ (zipFinal ⟨la, none⟩ xs).latestB = none := by
  intro xs
  induction xs with
  | nil => intro la _; exact ⟨rfl, rfl⟩
  | cons o rest ih =>
    intro la hall
    cases o with
    | inl a =>
      have hrest : ∀ x ∈ rest, x.isLeft = true := fun x hx => hall x (List.mem_cons_of_mem _ hx)
      have := ih (some a) hrest
      simpa [zipTraceFrom, zipFinal, zipStep] using this
    | inr b =>
      have := hall (Sum.inr b) (List.mem_cons_self _ _)
      simp at this

theorem zip_right_only {A B : Type} :
    ∀ (xs : List (A ⊕ B)) (lb : Option B),
      (∀ x ∈ xs, x.isRight = true) →
      zipTraceFrom ⟨none, lb⟩ xs = [] ∧ (zipFinal ⟨none, lb⟩ xs).latestA = none := by
  intro xs
  induction xs with
  | nil => intro lb _; exact ⟨rfl, rfl⟩
  | cons o rest ih =>
    intro lb hall
    cases o with
    | inr b =>
      have hrest : ∀ x ∈ rest, x.isRight = true := fun x hx => hall x (List.mem_cons_of_mem _ hx)
      have := ih (some b) hrest
      simpa [zipTraceFrom, zipFinal, zipStep] using this
    | inl a =>
      have := hall (Sum.inl a) (List.mem_cons_self _ _)
      simp at this

/-- C3: `zip` delivers no pair while the occurrences seen so far all come
from one side (so none before both sides have produced a value); once both
sides have produced (the closure state holds a last-known value per side),
every further occurrence from either side delivers exactly one pair
combining the new value with the other side's last-known value, and only
the latest value per side is retained. -/
theorem zip_pairs_with_last_known :
    ∀ (A B : Type) (xs : List (A ⊕ B)) (a a2 : A) (b b2 : B),
      ((∀ x ∈ xs, x.isLeft = true) → zipTrace xs = []) ∧
      ((∀ x ∈ xs, x.isRight = true) → zipTrace xs = []) ∧
      (zipFinal ⟨none, none⟩ xs = ⟨some a, some b⟩ →
        (zipTrace (xs ++ [Sum.inl a2]) = zipTrace xs ++ [(a2, b)] ∧
          zipFinal ⟨none, none⟩ (xs ++ [Sum.inl a2]) = ⟨some a2, some b⟩) ∧
        (zipTrace (xs ++ [Sum.inr b2]) = zipTrace xs ++ [(a, b2)] ∧
          zipFinal ⟨none, none⟩ (xs ++ [Sum.inr b2]) = ⟨some a, some b2⟩)) := by
  intro A B xs a a2 b b2
  refine ⟨fun hall => (zip_left_only xs none hall).1,
    fun hall => (zip_right_only xs none hall).1, ?_⟩
  intro hfin
  unfold zipTrace
  rw [zipTraceFrom_append, zipTraceFrom_append, zipFinal_append, zipFinal_append, hfin]
  exact ⟨⟨by simp [zipTraceFrom, zipStep], by simp [zipFinal, zipStep]⟩,
    ⟨by simp [zipTraceFrom, zipStep], by simp [zipFinal, zipStep]⟩⟩

/-- C7: a second `stepper` call with the same seed, made after a first one,
returns the very same cached reactive instance and leaves the cache
untouched; and the stepper reactive — driven by the stream through
`updateValueInternal` on each occurrence — holds the value of the most
recent occurrence, or the seed when none has occurred. -/
theorem stepper_cached_and_tracks_last :
    ∀ (A : Type) [DecidableEq A] (c : StepperCache A) (v : A) (fresh fresh2 : Nat)
      (seed : A) (xs : List A) (subs : List HandlerId),
      StepperCache.stepper (StepperCache.stepper c v fresh).2 v fresh2 =
        ((StepperCache.stepper c v fresh).1, (StepperCache.stepper c v fresh).2) ∧
      (ReactiveState.applyOccurrences ⟨seed, subs⟩ xs).currentValue =
        (xs.getLast?).getD seed := by
  intro A _ c v fresh fresh2 seed xs subs
  constructor
  · cases hre : c.stepperReactive with
    | some rid =>
      by_cases hiv : c.stepperInitialValue = some v
      · simp [StepperCache.stepper, hre, hiv]
      · simp [StepperCache.stepper, hre, hiv]
    | none => simp [StepperCache.stepper, hre]
  · rw [applyOccurrences_currentValue]
    exact foldl_select_last xs seed

/-- C8: emitting on a derived event — one constructed without a backing
source reactive — throws "Cannot emit on derived events" to the caller;
emitting on a source event never throws and forwards the value through
`sourceReactive.updateValueInternal`, the privileged update path. -/
theorem emit_derived_throws_source_updates :
    ∀ (A : Type) (beh : HandlerId → A → Except String Unit) (v : A)
      (r : ReactiveState A),
      emitOp beh (none : Option (ReactiveState A)) v =
        Except.error "Cannot emit on derived events" ∧
      emitOp beh (some r) v = Except.ok (r.updateValueInternal beh v) ∧
      (emitOp beh (some r) v).isOk = true := by
  intro A beh v r
  exact ⟨rfl, rfl, rfl⟩

/-- C9: `ReactiveImpl.map(f)` applies `f` to the current value
synchronously, outside any try/catch, to seed the result: when `f` throws
on the current value the whole call throws (no result is produced, nothing
is caught or logged), and when the parent has not yet created a change
event the result carries none either. -/
theorem reactive_map_seeds_synchronously :
    ∀ (A B : Type) (f : A → Option B) (r : ReactiveWithChanges A) (b : B),
      (f r.currentValue = none → ReactiveWithChanges.map f r = none) ∧
      (f r.currentValue = some b →
        ReactiveWithChanges.map f r = some ⟨b, r.changeEvent.map (mapTrace f)⟩) ∧
      (f r.currentValue = some b → r.changeEvent = none →
        ReactiveWithChanges.map f r = some ⟨b, none⟩) := by
  intro A B f r b
  refine ⟨?_, ?_, ?_⟩
  · intro hf; simp [ReactiveWithChanges.map, hf]
  · intro hf; simp [ReactiveWithChanges.map, hf]
  · intro hf hce; simp [ReactiveWithChanges.map, hf, hce]

theorem step_reactive_some {A : Type} (s : CreateState A) (op : CreateOp A)
    (hre : s.reactive.isSome) :
    (s.step op).2.countP isPromotedObs = 0 ∧ (s.step op).1.reactive.isSome := by
  obtain ⟨r, hr⟩ := Option.isSome_iff_exists.mp hre
  cases op with
  | sub h =>
    simp [CreateState.step, CreateState.runSubscribe, hr, isPromotedObs]
  | emitVal v =>
    simp [CreateState.step, CreateState.emit, hr, isPromotedObs]

theorem step_reactive_none {A : Type} (s : CreateState A) (op : CreateOp A)
    (hre : s.reactive = none) :
    ((s.step op).2.countP isPromotedObs = 0 ∧ (s.step op).1.reactive = none) ∨
    ((s.step op).2.countP isPromotedObs = 1 ∧ (s.step op).1.reactive.isSome) := by
  cases op with
  | sub h =>
    cases hiv : s.initialValue with
    | some v =>
      right
      simp [CreateState.step, CreateState.runSubscribe, hre, hiv, isPromotedObs]
    | none =>
      left
      simp [CreateState.step, CreateState.runSubscribe, hre, hiv, isPromotedObs]
  | emitVal v =>
    cases hq : s.onFirstEmit with
    | nil =>
      left
      simp [CreateState.step, CreateState.emit, hre, hq, isPromotedObs]
    | cons h t =>
      right
      simp [CreateState.step, CreateState.emit, hre, hq, isPromotedObs]

theorem runCreate_promoted_le {A : Type} :
    ∀ (ops : List (CreateOp A)) (s : CreateState A),
      ((runCreate s ops).2.countP isPromotedObs) ≤ (if s.reactive.isSome then 0 else 1) := by
  intro ops
  induction ops with
  | nil => intro s; simp [runCreate]
  | cons op rest ih =>
    intro s
    simp only [runCreate, List.countP_append]
    by_cases hre : s.reactive.isSome
    · obtain ⟨h0, hsome⟩ := step_reactive_some s op hre
      have h2 := ih (s.step op).1
      rw [if_pos hsome] at h2
      rw [if_pos hre, h0]
      omega
    · have hnone : s.reactive = none := Option.not_isSome_iff_eq_none.mp hre
      rw [if_neg hre]
      rcases step_reactive_none s op hnone with ⟨h0, hn⟩ | ⟨h1, hs⟩
      · have h2 := ih (s.step op).1
        rw [hn] at h2
        simp at h2
        rw [h0]
        omega
      · have h2 := ih (s.step op).1
        rw [if_pos hs] at h2
        rw [h1]
        omega

/-- C1: for a stream from `Event.create`, (i) if a value was emitted before
any handler subscribed, the backing future, when first run, delivers that
already-known initial value to the newly registered handler, and otherwise
the handler is queued into `onFirstEmit`; (ii) along every operation
sequence from the fresh state, promotion from "no backing reactive" to
"backed by a concrete reactive" happens at most once; (iii) every emission
after promotion goes through `reactive.updateValueInternal`, the
privileged update path. -/
theorem create_first_value_and_single_promotion :
    ∀ (A : Type) (s : CreateState A) (h : HandlerId) (v : A),
      (s.reactive = none → s.initialValue = some v →
        (s.runSubscribe h).2 = [CreateObs.delivered h v, CreateObs.promoted]) ∧
      (s.reactive = none → s.initialValue = none →
        (s.runSubscribe h).2 = [CreateObs.queuedObs h] ∧
        (s.runSubscribe h).1.onFirstEmit = s.onFirstEmit ++ [h]) ∧
      (∀ ops : List (CreateOp A),
        ((runCreate (CreateState.init : CreateState A) ops).2.countP isPromotedObs) ≤ 1) ∧
      (∀ r, s.reactive = some r →
        (s.emit v).2 = [CreateObs.privilegedUpdate v] ∧
        (s.emit v).1.reactive = some (r.updateValueInternal okBeh v).1) := by
  intro A s h v
  refine ⟨?_, ?_, ?_, ?_⟩
  · intro hre hiv
    simp [CreateState.runSubscribe, hre, hiv]
  · intro hre hiv
    simp [CreateState.runSubscribe, hre, hiv]
  · intro ops
    have hle := runCreate_promoted_le ops (CreateState.init : CreateState A)
    simpa [CreateState.init] using hle
  · intro r hre
    simp [CreateState.emit, hre]

/-- Witness for C1 at concrete inputs: emit-before-subscribe delivery,
queueing, promotion bound along a concrete operation sequence, and
post-promotion privileged update. -/
theorem create_first_value_and_single_promotion_witness :
    ((⟨none, some 5, []⟩ : CreateState Nat).runSubscribe 0).2 =
      [CreateObs.delivered 0 5, CreateObs.promoted] ∧
    ((⟨none, none, []⟩ : CreateState Nat).runSubscribe 0).2 = [CreateObs.queuedObs 0] ∧
    ((runCreate (CreateState.init : CreateState Nat)
        [CreateOp.emitVal 1, CreateOp.sub 0, CreateOp.emitVal 2]).2.countP isPromotedObs) ≤ 1 ∧
    ((⟨some ⟨3, [7]⟩, some 3, []⟩ : CreateState Nat).emit 4).2 =
      [CreateObs.privilegedUpdate 4] :=
  ⟨(create_first_value_and_single_promotion Nat ⟨none, some 5, []⟩ 0 5).1 rfl rfl,
   ((create_first_value_and_single_promotion Nat ⟨none, none, []⟩ 0 0).2.1 rfl rfl).1,
   (create_first_value_and_single_promotion Nat CreateState.init 0 0).2.2.1
     [CreateOp.emitVal 1, CreateOp.sub 0, CreateOp.emitVal 2],
   ((create_first_value_and_single_promotion Nat ⟨some ⟨3, [7]⟩, some 3, []⟩ 0 4).2.2.2
     ⟨3, [7]⟩ rfl).1⟩

/-- Witness for C3 at concrete inputs: a left-only trace and a right-only
trace deliver no pair, and after `[inl 1, inr 2]` each new occurrence
pairs with the other side's last-known value. -/
theorem zip_pairs_with_last_known_witness :
    zipTrace ([Sum.inl 5] : List (Nat ⊕ Nat)) = [] ∧
    zipTrace ([Sum.inr 6] : List (Nat ⊕ Nat)) = [] ∧
    (zipTrace (([Sum.inl 1, Sum.inr 2] : List (Nat ⊕ Nat)) ++ [Sum.inl 3]) =
        zipTrace ([Sum.inl 1, Sum.inr 2] : List (Nat ⊕ Nat)) ++ [(3, 2)] ∧
      zipFinal ⟨none, none⟩ (([Sum.inl 1, Sum.inr 2] : List (Nat ⊕ Nat)) ++ [Sum.inl 3]) =
        ⟨some 3, some 2⟩) ∧
    (zipTrace (([Sum.inl 1, Sum.inr 2] : List (Nat ⊕ Nat)) ++ [Sum.inr 4]) =
        zipTrace ([Sum.inl 1, Sum.inr 2] : List (Nat ⊕ Nat)) ++ [(1, 4)] ∧
      zipFinal ⟨none, none⟩ (([Sum.inl 1, Sum.inr 2] : List (Nat ⊕ Nat)) ++ [Sum.inr 4]) =
        ⟨some 1, some 4⟩) :=
  ⟨(zip_pairs_with_last_known Nat Nat [Sum.inl 5] 0 0 0 0).1 (by simp),
   (zip_pairs_with_last_known Nat Nat [Sum.inr 6] 0 0 0 0).2.1 (by simp),
   ((zip_pairs_with_last_known Nat Nat [Sum.inl 1, Sum.inr 2] 1 3 2 4).2.2 (by decide)).1,
   ((zip_pairs_with_last_known Nat Nat [Sum.inl 1, Sum.inr 2] 1 3 2 4).2.2 (by decide)).2⟩

/-- Witness for C5 at concrete inputs: the mapper, predicate and fold
function all throw exactly on the occurrence `2`, which is dropped while
the surrounding occurrences are processed normally. -/
theorem transform_fault_isolated_witness :
    mapTrace (fun n : Nat => if n = 2 then none else some (n * 10)) ([1] ++ 2 :: [3]) =
      mapTrace (fun n : Nat => if n = 2 then none else some (n * 10)) ([1] ++ [3]) ∧
    filterTrace (fun n : Nat => if n = 2 then none else some (n ≠ 0)) ([1] ++ 2 :: [3]) =
      filterTrace (fun n : Nat => if n = 2 then none else some (n ≠ 0)) ([1] ++ [3]) ∧
    (foldUpdates (fun b a : Nat => if a = 2 then none else some (b + a)) 0 ([1] ++ 2 :: [3]) =
        foldUpdates (fun b a : Nat => if a = 2 then none else some (b + a)) 0 ([1] ++ [3]) ∧
      foldAcc (fun b a : Nat => if a = 2 then none else some (b + a)) 0 ([1] ++ 2 :: [3]) =
        foldAcc (fun b a : Nat => if a = 2 then none else some (b + a)) 0 ([1] ++ [3])) :=
  ⟨(transform_fault_isolated Nat Nat (fun n => if n = 2 then none else some (n * 10))
      (fun n => if n = 2 then none else some (n ≠ 0))
      (fun b a => if a = 2 then none else some (b + a)) 0 [1] [3] 2).1 (by decide),
   (transform_fault_isolated Nat Nat (fun n => if n = 2 then none else some (n * 10))
      (fun n => if n = 2 then none else some (n ≠ 0))
      (fun b a => if a = 2 then none else some (b + a)) 0 [1] [3] 2).2.1 (by decide),
   (transform_fault_isolated Nat Nat (fun n => if n = 2 then none else some (n * 10))
      (fun n => if n = 2 then none else some (n ≠ 0))
      (fun b a => if a = 2 then none else some (b + a)) 0 [1] [3] 2).2.2 (by decide)⟩

/-- Witness for C9 at concrete inputs: mapping with a function that throws
on `0` propagates from a reactive currently holding `0`, succeeds on one
holding `1`, and attaches no change event when the parent has none. -/
theorem reactive_map_seeds_synchronously_witness :
    ReactiveWithChanges.map (fun n : Nat => if n = 0 then none else some (n + 1))
        ⟨0, none⟩ = none ∧
    ReactiveWithChanges.map (fun n : Nat => if n = 0 then none else some (n + 1))
        ⟨1, some [0, 2]⟩ =
      some ⟨2, (some [0, 2] : Option (List Nat)).map
        (mapTrace (fun n : Nat => if n = 0 then none else some (n + 1)))⟩ ∧
    ReactiveWithChanges.map (fun n : Nat => if n = 0 then none else some (n + 1))
        ⟨1, none⟩ = some ⟨2, none⟩ :=
  ⟨(reactive_map_seeds_synchronously Nat Nat
      (fun n => if n = 0 then none else some (n + 1)) ⟨0, none⟩ 2).1 (by decide),
   (reactive_map_seeds_synchronously Nat Nat
      (fun n => if n = 0 then none else some (n + 1)) ⟨1, some [0, 2]⟩ 2).2.1 (by decide),
   (reactive_map_seeds_synchronously Nat Nat
      (fun n => if n = 0 then none else some (n + 1)) ⟨1, none⟩ 2).2.2 (by decide) rfl⟩

end SynxFRP

